import Mathlib

/-
Verification of the Juniper device-metrics enrichment plugin
(yahoo_panoptes/plugins/enrichment/generic/snmp/juniper/
 plugin_enrichment_juniper_device_metrics.py).

The Python code is shallowly embedded: Python dicts become association
lists built with insertion-order-preserving `upsert` (matching dict
assignment semantics: overwrite in place, append new keys at the end);
SNMP bulk walks become lists of (index, value) pairs; `re.match` becomes
an executable backtracking matcher `mtch` over a small regex AST covering
exactly the constructs used by the plugin's pattern lists; KeyError-raising
dict lookups become `Except String` computations carrying the missing key.
-/

set_option maxHeartbeats 1000000

namespace JP

/-! ## Association-list model of Python dicts -/

/-- Keys of an association list (Python `dict.keys()`, in order). -/
def keys (m : List (String × α)) : List String := m.map Prod.fst

/-- Values of an association list (Python `dict.values()`, in order). -/
def valuesOf (m : List (String × α)) : List α := m.map Prod.snd

/-- Whether the dict has the key (Python `k in d`). -/
def hasK (m : List (String × α)) (k : String) : Bool := m.any (fun p => decide (p.1 = k))

/-- Python dict assignment `d[k] = v`: overwrite in place if the key is
present (keeping its position), otherwise append the new pair at the end. -/
def upsert (m : List (String × α)) (k : String) (v : α) : List (String × α) :=
  if hasK m k then m.map (fun p => if p.1 = k then (k, v) else p) else m ++ [(k, v)]

/-- Python dict lookup `d[k]` / `d.get(k)`: first (unique) entry with the key. -/
def alook (k : String) : List (String × α) → Option α
  | [] => none
  | p :: ps => if p.1 = k then some p.2 else alook k ps

/-- Building a dict from a sequence of (key, value) pairs, as a Python loop
of assignments does (`for i, v in l: d[i] = v`). -/
def dictOf (l : List (String × α)) : List (String × α) :=
  l.foldl (fun m p => upsert m p.1 p.2) []

/-- Python `dict(collections.Counter(l))`: multiplicity of each element,
keys in first-occurrence order. -/
def counter (l : List String) : List (String × Int) :=
  l.foldl (fun acc t =>
    match alook t acc with
    | some n => upsert acc t (n + 1)
    | none => acc ++ [(t, 1)]) []

/-! ## Substring test (Python `needle in haystack`) -/

/-- Bool prefix test on char lists. -/
def prefB : List Char → List Char → Bool
  | [], _ => true
  | _ :: _, [] => false
  | a :: as, b :: bs => (a == b) && prefB as bs

/-- Bool contiguous-substring test on char lists (needle, haystack). -/
def infB (n : List Char) (h : List Char) : Bool :=
  prefB n h ||
    match h with
    | [] => false
    | _ :: t => infB n t

/-- Python `needle in haystack` on strings. -/
def containsSub (hay needle : String) : Bool := infB needle.data hay.data

/-! ## Regex engine

A small AST covering exactly the constructs appearing in the plugin's
`FAN_TYPES` and `POWER_MODULE_TYPES` pattern strings: literal characters,
the classes `\d`, `\w`, `\s`, one-or-more repetition of a class (`\d+`,
`\w+`), concatenation, alternation (also encoding `\d{1,2}` as a digit
followed by an optional digit), and the end anchor `$` (which in Python
also matches just before a single trailing newline). -/

inductive Regex where
  | eps
  | dollar
  | char (c : Char)
  | cls (p : Char → Bool)
  | plusCls (p : Char → Bool)
  | cat (r₁ r₂ : Regex)
  | alt (r₁ r₂ : Regex)

/-- One-or-more repetition of a character class, CPS-style: try every
nonempty run of class characters, calling `k` on each possible remainder. -/
def mtchPlus (p : Char → Bool) (k : List Char → Bool) : List Char → Bool
  | [] => false
  | a :: t => p a && (k t || mtchPlus p k t)

/-- Backtracking matcher, CPS-style: `mtch r s k` is true when some prefix
of `s` matches `r` and `k` accepts the corresponding remainder. -/
def mtch : Regex → List Char → (List Char → Bool) → Bool
  | .eps, s, k => k s
  | .dollar, s, k => (decide (s = []) || decide (s = ['\n'])) && k s
  | .char _, [], _ => false
  | .char c, a :: t, k => (a == c) && k t
  | .cls _, [], _ => false
  | .cls p, a :: t, k => p a && k t
  | .plusCls p, s, k => mtchPlus p k s
  | .cat r₁ r₂, s, k => mtch r₁ s (fun t => mtch r₂ t k)
  | .alt r₁ r₂, s, k => mtch r₁ s k || mtch r₂ s k

/-- Python `re.match(r, s)` truthiness: match anchored at the start of `s`,
not necessarily consuming all of it. -/
def mtchPre (r : Regex) (s : List Char) : Bool := mtch r s (fun _ => true)

/-- `re.match` on a Lean string. -/
def reMatch (r : Regex) (s : String) : Bool := mtchPre r s.data

/-- Python `\d` (ASCII scope). -/
def digitB (c : Char) : Bool := c.isDigit

/-- Python `\w` (ASCII scope): letters, digits, underscore. -/
def wordB (c : Char) : Bool := c.isAlphanum || c == '_'

/-- Python `\s` (ASCII scope). -/
def spaceB (c : Char) : Bool :=
  c == ' ' || c == '\t' || c == '\n' || c == '\r' || c == '\x0b' || c == '\x0c'

/-- A literal character sequence followed by more regex. -/
def rchars : List Char → Regex → Regex
  | [], r => r
  | c :: cs, r => .cat (.char c) (rchars cs r)

/-- Optional regex (used for `\d{1,2}` = a digit then an optional digit). -/
def ropt (r : Regex) : Regex := .alt .eps r

def rdig : Regex := .cls digitB
def rdigPlus : Regex := .plusCls digitB
def rwordPlus : Regex := .plusCls wordB
def rsp : Regex := .cls spaceB

/-! ### The plugin's pattern lists -/

/-- regex `Fan Tray \d+ Fan \d+` -/
def fan1 : Regex :=
  rchars ['F','a','n',' ','T','r','a','y',' ']
    (.cat rdigPlus (rchars [' ','F','a','n',' '] rdigPlus))

/-- regex `Fan Tray \d+` -/
def fan2 : Regex := rchars ['F','a','n',' ','T','r','a','y',' '] rdigPlus

/-- regex `FAN \d+` -/
def fan3 : Regex := rchars ['F','A','N',' '] rdigPlus

/-- regex `node\d SRX\d+ \w+ fan \d` -/
def fan4 : Regex :=
  rchars ['n','o','d','e']
    (.cat rdig (rchars [' ','S','R','X']
      (.cat rdigPlus (.cat (.char ' ')
        (.cat rwordPlus (rchars [' ','f','a','n',' '] rdig))))))

/-- regex `node\d Fan \d` -/
def fan5 : Regex :=
  rchars ['n','o','d','e'] (.cat rdig (rchars [' ','F','a','n',' '] rdig))

/-- regex `node\d \w+ Tray Fan \d+` -/
def fan6 : Regex :=
  rchars ['n','o','d','e']
    (.cat rdig (.cat (.char ' ')
      (.cat rwordPlus (rchars [' ','T','r','a','y',' ','F','a','n',' '] rdigPlus))))

/-- regex `(Top|Bottom)\s(Rear|Middle|Front)\sFan` -/
def fan7 : Regex :=
  .cat (.alt (rchars ['T','o','p'] .eps) (rchars ['B','o','t','t','o','m'] .eps))
    (.cat rsp
      (.cat (.alt (rchars ['R','e','a','r'] .eps)
        (.alt (rchars ['M','i','d','d','l','e'] .eps) (rchars ['F','r','o','n','t'] .eps)))
        (.cat rsp (rchars ['F','a','n'] .eps))))

/-- the module-level FAN_TYPES list, in declaration order -/
def FAN_TYPES : List Regex := [fan1, fan2, fan3, fan4, fan5, fan6, fan7]

/-- regex `PDM \d{1,2}$` -/
def pow1 : Regex :=
  rchars ['P','D','M',' '] (.cat rdig (.cat (ropt rdig) .dollar))

/-- regex `PEM` -/
def pow2 : Regex := rchars ['P','E','M'] .eps

/-- regex `PSM \d{1,2}$` -/
def pow3 : Regex :=
  rchars ['P','S','M',' '] (.cat rdig (.cat (ropt rdig) .dollar))

/-- regex `Power Supply \d$` -/
def pow4 : Regex :=
  rchars ['P','o','w','e','r',' ','S','u','p','p','l','y',' '] (.cat rdig .dollar)

/-- regex `Power Supply: Power Supply \d+ @` -/
def pow5 : Regex :=
  rchars ['P','o','w','e','r',' ','S','u','p','p','l','y',':',' ',
          'P','o','w','e','r',' ','S','u','p','p','l','y',' ']
    (.cat rdigPlus (rchars [' ','@'] .eps))

/-- regex `node\d PEM \d` -/
def pow6 : Regex :=
  rchars ['n','o','d','e'] (.cat rdig (rchars [' ','P','E','M',' '] rdig))

/-- the module-level POWER_MODULE_TYPES list, in declaration order -/
def POWER_MODULE_TYPES : List Regex := [pow1, pow2, pow3, pow4, pow5, pow6]

/-- TYPE_MAP = dict(zip(POWER_MODULE_TYPES, ['PDM','PEM','PSM','PEM','PEM','PEM'])),
kept as the zipped pairing (the six pattern keys are distinct). -/
def TYPE_MAP : List (Regex × String) :=
  POWER_MODULE_TYPES.zip ["PDM", "PEM", "PSM", "PEM", "PEM", "PEM"]

/-- The canonical power-module type determined by the first two characters
of a name (the six patterns force distinct two-character prefixes for the
distinct types: `PD` for PDM, `PS` for PSM, everything else maps to PEM). -/
def typeSig : List Char → String
  | 'P' :: 'D' :: _ => "PDM"
  | 'P' :: 'S' :: _ => "PSM"
  | _ => "PEM"

/-- Whether some fan pattern matches the name. -/
def fanMatchAny (nm : String) : Bool := FAN_TYPES.any (fun r => reMatch r nm)

/-- Whether some power-module pattern matches the name. -/
def powerMatchAny (nm : String) : Bool := TYPE_MAP.any (fun pt => reMatch pt.1 nm)

/-! ## MIB OID constants

Modelled from the spec: the OID string constants come from the framework's
MIB modules (`MibJuniper`, `MibSNMPV2`), which are outside this plugin file;
the spec names the fields but not their numeric values, so they are modelled
as distinct placeholder strings. -/

def jnxOperating1MinAvgCPU : String := "jnxOperating1MinAvgCPU"
def jnxOperating5MinAvgCPU : String := "jnxOperating5MinAvgCPU"
def jnxOperating15MinAvgCPU : String := "jnxOperating15MinAvgCPU"
def jnxOperatingCPU : String := "jnxOperatingCPU"
def jnxOperatingBuffer : String := "jnxOperatingBuffer"
def jnxOperatingState : String := "jnxOperatingState"
def jnxOperatingTemp : String := "jnxOperatingTemp"
def hrStorageAllocationFailures : String := "hrStorageAllocationFailures"
def hrStorageUsed : String := "hrStorageUsed"

/-! ## Poll-interval OID selector -/

/-- Embedding of `_get_cpu_interval`: bands the configured polling frequency
(seconds, an arbitrary integer) into one of the three averaged-CPU OIDs,
mirroring the chained comparisons of the source. -/
def _get_cpu_interval (polling_frequency : Int) : String :=
  if 5 ≤ polling_frequency ∧ polling_frequency < 300 then jnxOperating1MinAvgCPU
  else if 300 ≤ polling_frequency ∧ polling_frequency < 900 then jnxOperating5MinAvgCPU
  else if 900 ≤ polling_frequency then jnxOperating15MinAvgCPU
  else jnxOperating1MinAvgCPU

/-! ## Entity catalog and classifiers

The entity catalog `self._entity_names` is the dict built from the
`jnxOperatingDescr` walk; classifiers receive it as an association list.
Classifiers that index into the catalog (`_temp_sensors`, `_cpus`) can raise
`KeyError`, embedded as `Except String` carrying the missing key. -/

/-- Embedding of `_entity_names`: dict of index to decoded description. -/
def _entity_names (walk : List (String × String)) : List (String × String) :=
  dictOf walk

/-- Loop body of `_temp_sensors`: walk entries with `0 < value < bound` are
recorded with the sensor name looked up in the catalog (KeyError if absent). -/
def tempSensorsAux (bound : Int) (catalog : List (String × String)) :
    List (String × Int) → List (String × String) → Except String (List (String × String))
  | [], temps => .ok temps
  | (i, v) :: rest, temps =>
    if 0 < v ∧ v < bound then
      match alook i catalog with
      | some name => tempSensorsAux bound catalog rest (upsert temps i name)
      | none => .error i
    else tempSensorsAux bound catalog rest temps

/-- Embedding of `_temp_sensors`. `bound` stands for
`const.MELTING_POINT_STEEL`, a framework constant outside this plugin file
(modelled from the spec as an arbitrary fixed sanity bound). -/
def _temp_sensors (bound : Int) (catalog : List (String × String))
    (walk : List (String × Int)) : Except String (List (String × String)) :=
  tempSensorsAux bound catalog walk []

/-- the fixed role-keyword list of `_cpus`, in declaration order -/
def cpuKeywords : List String := ["routing engine", "fpc", "fpm", "cp", "pic", "fbc"]

/-- Loop body of `_cpus`: for each walk index, the catalog name is fetched
(KeyError if absent) and the index is kept when the lowercased name contains
one of the role keywords (`break` after the first hit only stops further
containment tests, so membership is `any`). -/
def cpusAux (catalog : List (String × String)) :
    List (String × Int) → List (String × (String × String)) →
      Except String (List (String × (String × String)))
  | [], cpus => .ok cpus
  | (i, _) :: rest, cpus =>
    match alook i catalog with
    | none => .error i
    | some name =>
      if cpuKeywords.any (fun kw => containsSub name.toLower kw) then
        cpusAux catalog rest (upsert cpus i (name, "Module " ++ i))
      else cpusAux catalog rest cpus

/-- Embedding of `_cpus`: dict of index to (cpu_name, cpu_no). -/
def _cpus (catalog : List (String × String)) (walk : List (String × Int)) :
    Except String (List (String × (String × String))) :=
  cpusAux catalog walk []

/-- Embedding of `_memory`: every walk index is recorded with its raw
megabyte reading scaled to bytes. -/
def _memory (walk : List (String × Int)) : List (String × Int) :=
  dictOf (walk.map (fun p => (p.1, p.2 * 2 ^ 20)))

/-- Embedding of `_fans`: every catalog entry whose name matches some
pattern of FAN_TYPES is recorded (the inner loop has no break, so each
matching pattern re-assigns the same `name` payload). -/
def _fans (catalog : List (String × String)) : List (String × String) :=
  catalog.foldl (fun fans p =>
    FAN_TYPES.foldl (fun fans r =>
      if reMatch r p.2 then upsert fans p.1 p.2 else fans) fans) []

/-- Embedding of `_power_modules`: every catalog entry whose name matches
some pattern is recorded with payload (name, TYPE_MAP[pattern]); the inner
loop has no break, so a later matching pattern overwrites the entry. -/
def _power_modules (catalog : List (String × String)) :
    List (String × (String × String)) :=
  catalog.foldl (fun pm p =>
    TYPE_MAP.foldl (fun pm pt =>
      if reMatch pt.1 p.2 then upsert pm p.1 (p.2, pt.2) else pm) pm) []

/-- Variant of `_fans` written the way the spec describes regex classifiers:
the first matching pattern (in declaration order) determines the result. -/
def fansFirstMatch (catalog : List (String × String)) : List (String × String) :=
  catalog.foldl (fun fans p =>
    match FAN_TYPES.find? (fun r => reMatch r p.2) with
    | some _ => upsert fans p.1 p.2
    | none => fans) []

/-- Variant of `_power_modules` written the way the spec describes regex
classifiers: the first matching pattern determines membership and type. -/
def powerFirstMatch (catalog : List (String × String)) :
    List (String × (String × String)) :=
  catalog.foldl (fun pm p =>
    match TYPE_MAP.find? (fun pt => reMatch pt.1 p.2) with
    | some pt => upsert pm p.1 (p.2, pt.2)
    | none => pm) []

/-- Embedding of `_storage_descriptions`: dict of index to decoded
description from the `hrStorageDescr` walk. -/
def _storage_descriptions (walk : List (String × String)) : List (String × String) :=
  dictOf walk

/-- Embedding of `_storage_allocation_units`: dict of index to integer
allocation-unit size from the `hrStorageAllocationUnits` walk. -/
def _storage_allocation_units (walk : List (String × Int)) : List (String × Int) :=
  dictOf walk

/-- Embedding of `_storage_size`: for each index of the `hrStorageSize` walk
that is also a key of the allocation-units dict, raw size times the
allocation unit; other indices are skipped. -/
def _storage_size (sizeWalk unitsWalk : List (String × Int)) : List (String × Int) :=
  let allocation_units := _storage_allocation_units unitsWalk
  sizeWalk.foldl (fun storage_size p =>
    match alook p.1 allocation_units with
    | some u => upsert storage_size p.1 (p.2 * u)
    | none => storage_size) []

/-! ## OID map builder -/

/-- An entry of `self._oids_map`: either a dynamic bulk-walk directive or a
static per-index value table (string-valued or integer-valued). -/
inductive OidEntry where
  | bulkWalk (oid : String)
  | staticStr (values : List (String × String))
  | staticInt (values : List (String × Int))
deriving DecidableEq

/-- The dict comprehension \x7bx: x for x in values.values()\x7d of
`_add_power_module_types_mapping`. -/
def typesMapping (vs : List (String × String)) : List (String × String) :=
  dictOf ((valuesOf vs).map (fun t => (t, t)))

/-- The `values.update(types_mapping)` pass on the power_module_types value
table: each canonical type is upserted as a key mapped to itself. -/
def addMappingTable (vs : List (String × String)) : List (String × String) :=
  (typesMapping vs).foldl (fun acc p => upsert acc p.1 p.2) vs

/-- Embedding of `_add_power_module_types_mapping`: updates the values table
of the `power_module_types` entry of the OID map in place. -/
def _add_power_module_types_mapping (m : List (String × OidEntry)) :
    List (String × OidEntry) :=
  m.map (fun p =>
    if p.1 = "power_module_types" then
      (p.1, match p.2 with
            | .staticStr vs => .staticStr (addMappingTable vs)
            | e => e)
    else p)

/-- The power_module_types value table of an OID map (empty if absent). -/
def pmtValues (m : List (String × OidEntry)) : List (String × String) :=
  match alook "power_module_types" m with
  | some (.staticStr vs) => vs
  | _ => []

/-- the transformation the identity-mapping pass applies to the
power_module_types entry -/
def pmtEntryF : OidEntry → OidEntry
  | .staticStr vs => .staticStr (addMappingTable vs)
  | e => e

/-- a key of a value table that is present and whose every entry maps it to
itself (the state the identity-mapping pass establishes for each type). -/
def goodKey (m : List (String × String)) (w : String) : Prop :=
  w ∈ keys m ∧ ∀ p ∈ m, p.1 = w → p.2 = w

/-- Embedding of `_build_oids_map`. The memoized classifier results are
passed as arguments (`cpus`, `memory`, `fans`, `power`, `temps` and the four
storage tables mirror the corresponding cached properties); `include_disk`
is the truthiness of
`plugin_conf.get('metrics_group', \x7b\x7d).get('include_disk_metrics_group', 0)`.
The storage block is added via `dict.update`, whose keys are disjoint from
the base map, i.e. an append. -/
def _build_oids_map (cpus : List (String × (String × String)))
    (memory : List (String × Int)) (fans : List (String × String))
    (power : List (String × (String × String))) (temps : List (String × String))
    (storage_descriptions storage_type : List (String × String))
    (storage_allocation_units storage_size : List (String × Int))
    (juniper_model : String) (polling_frequency : Int) (include_disk : Bool) :
    List (String × OidEntry) :=
  let base : List (String × OidEntry) :=
    [ ("cpu_name", .staticStr (cpus.map (fun p => (p.1, p.2.1)))),
      ("cpu_no", .staticStr (cpus.map (fun p => (p.1, p.2.2)))),
      ("cpu_util", .bulkWalk (if containsSub juniper_model "EX4300" then
          jnxOperatingCPU else _get_cpu_interval polling_frequency)),
      ("memory_used", .bulkWalk jnxOperatingBuffer),
      ("memory_total", .staticInt (memory.filter (fun p => p.2 != 0))),
      ("oper_status", .bulkWalk jnxOperatingState),
      ("fans", .staticStr (fans.map (fun p => (p.1, p.2)))),
      ("power_modules", .staticStr (power.map (fun p => (p.1, p.2.1)))),
      ("power_module_types", .staticStr (power.map (fun p => (p.1, p.2.2)))),
      ("power_units_total", .staticInt (counter (power.map (fun p => p.2.2)))),
      ("temp_sensor_values", .bulkWalk jnxOperatingTemp),
      ("temp_sensor_name", .staticStr (temps.map (fun p => (p.1, p.2)))) ]
  let withStorage :=
    if include_disk then
      base ++
        [ ("storage_description", .staticStr storage_descriptions),
          ("storage_type", .staticStr storage_type),
          ("storage_allocation_failures", .bulkWalk hrStorageAllocationFailures),
          ("storage_allocation_units", .staticInt storage_allocation_units),
          ("storage_used_bytes", .bulkWalk hrStorageUsed),
          ("storage_total_bytes", .staticInt storage_size) ]
    else base
  _add_power_module_types_mapping withStorage

/-! ## Metrics group assembler -/

/-- A metric value: either a small dict of string fields (metric_type,
value, etc.) or a direct integer (as in `fans_total`). -/
inductive MetricBody where
  | table (fields : List (String × String))
  | num (n : Int)
deriving DecidableEq

/-- One declarative metrics group of `_build_metrics_groups_conf`. -/
structure MetricsGroup where
  group_name : String
  dimensions : List (String × String)
  metrics : List (String × MetricBody)
deriving DecidableEq

/-- the always-present `environment` temperature group -/
def tempGroup : MetricsGroup :=
  { group_name := "environment",
    dimensions := [("sensor", "temp_sensor_name.$index")],
    metrics := [("temperature_fahrenheit", .table
      [ ("metric_type", "gauge"),
        ("type", "float"),
        ("transform", "lambda x: round((x * 1.8) + 32, 2) if x != 0 else 0.0"),
        ("value", "temp_sensor_values.$index") ])] }

/-- the always-present `cpu` group -/
def cpuGroup : MetricsGroup :=
  { group_name := "cpu",
    dimensions :=
      [ ("cpu_name", "cpu_name.$index"),
        ("cpu_no", "cpu_no.$index"),
        ("cpu_type",
          "\x27data\x27 if \x27Routing Engine\x27 in cpu_name.$index else \x27ctrl\x27") ],
    metrics := [("cpu_utilization", .table
      [("metric_type", "gauge"), ("value", "cpu_util.$index")])] }

/-- the always-present `memory` group -/
def memoryGroup : MetricsGroup :=
  { group_name := "memory",
    dimensions := [("memory_type", "cpu_name.$index")],
    metrics :=
      [ ("memory_used", .table
          [ ("metric_type", "gauge"),
            ("indices_from", "memory_total"),
            ("value", "float(memory_used.$index) / 100.0 * memory_total.$index") ]),
        ("memory_total", .table
          [("metric_type", "gauge"), ("value", "memory_total.$index")]) ] }

/-- the conditional power `environment` group -/
def powerGroup : MetricsGroup :=
  { group_name := "environment",
    dimensions := [("power_module_type", "power_module_types.$index")],
    metrics :=
      [ ("power_units_on", .table
          [ ("metric_type", "gauge"),
            ("indices_from", "power_units_total"),
            ("value", "len([(x,y) for (x,y) in oper_status.items() if x in power_module_types and y not in [\x276\x27] and power_module_types[x] == $index])") ]),
        ("power_units_total", .table
          [("metric_type", "gauge"), ("value", "power_units_total.$index")]) ] }

/-- the conditional fan `environment` group (carries the fan count) -/
def fanGroup (fanCount : Int) : MetricsGroup :=
  { group_name := "environment",
    dimensions := [],
    metrics :=
      [ ("fans_ok", .table
          [ ("metric_type", "gauge"),
            ("value", "len([(x,y) for (x,y) in oper_status.items() if x in fans and y not in [\x276\x27]])") ]),
        ("fans_total", .num fanCount) ] }

/-- the conditional `disk` group -/
def diskGroup : MetricsGroup :=
  { group_name := "disk",
    dimensions :=
      [ ("storage_description", "storage_description.$index"),
        ("storage_type", "storage_type.$index") ],
    metrics :=
      [ ("storage_allocation_failures", .table
          [("metric_type", "counter"), ("value", "storage_allocation_failures.$index")]),
        ("storage_used_bytes", .table
          [ ("metric_type", "gauge"),
            ("value", "int(storage_used_bytes.$index) * int(storage_allocation_units.$index)") ]),
        ("storage_total_bytes", .table
          [("metric_type", "gauge"), ("value", "storage_total_bytes.$index")]) ] }

/-- Embedding of `_build_metrics_groups_conf`: the three base groups, then
the power group if at least one power module was classified, the fan group
if at least one fan was classified, and the disk group if at least one
storage description exists AND the disk-metrics flag is truthy. -/
def _build_metrics_groups_conf (power : List (String × (String × String)))
    (fans : List (String × String)) (storage_descriptions : List (String × String))
    (include_disk : Bool) : List MetricsGroup :=
  [tempGroup, cpuGroup, memoryGroup] ++
    (if 0 < power.length then [powerGroup] else []) ++
    (if 0 < fans.length then [fanGroup (fans.length : Int)] else []) ++
    (if 0 < storage_descriptions.length ∧ include_disk = true then [diskGroup] else [])

/-! ## Enrichment emitter -/

/-- The enrichment payload handed to the sink: the OID map and the metrics
group list, keyed by the fixed schema names. -/
structure EnrichmentSetPayload where
  oids : List (String × OidEntry)
  metrics_groups : List MetricsGroup

/-- The observable outcome of `get_enrichment`: the error messages logged
and the enrichment group set that is returned. -/
structure GetEnrichmentResult where
  errorLogs : List String
  groupSet : List String

/-- Embedding of the emission part of `get_enrichment`: the payload is
offered to the sink (`enrichment_group.add_enrichment_set`, an external
collaborator whose outcome is a parameter); an exception from the sink is
caught and logged; the enrichment group is then added to the group set,
which is returned unconditionally. -/
def get_enrichment (sink : EnrichmentSetPayload → Except String Unit)
    (oids : List (String × OidEntry)) (groups : List MetricsGroup)
    (device_fqdn enrichment_group : String) (enrichment_group_set : List String) :
    GetEnrichmentResult :=
  let enrichment_set : EnrichmentSetPayload := ⟨oids, groups⟩
  let logs :=
    match sink enrichment_set with
    | .ok _ => []
    | .error e =>
      ["Error while adding enrichment set to enrichment group for the device "
        ++ device_fqdn ++ ": " ++ e]
  ⟨logs, enrichment_group_set ++ [enrichment_group]⟩

/-! ## Basic association-list lemmas -/

lemma hasK_iff {m : List (String × α)} {k : String} :
    hasK m k = true ↔ k ∈ keys m := by
  simp [hasK, keys, List.any_eq_true, List.mem_map, beq_iff_eq]

lemma keys_map_upd (m : List (String × α)) (k : String) (v : α) :
    keys (m.map (fun p => if p.1 = k then (k, v) else p)) = keys m := by
  induction m with
  | nil => rfl
  | cons p ps ih =>
    simp only [keys, List.map_cons] at *
    by_cases h : p.1 = k
    · simp [h, ih]
    · simp [h, ih]

lemma mem_keys_upsert {m : List (String × α)} {k i : String} {v : α} :
    i ∈ keys (upsert m k v) ↔ i = k ∨ i ∈ keys m := by
  unfold upsert
  split
  · rename_i h
    rw [keys_map_upd]
    constructor
    · exact fun hm => Or.inr hm
    · rintro (rfl | hm)
      · exact hasK_iff.1 h
      · exact hm
  · simp [keys, List.mem_append, or_comm]

lemma alook_map_upd_self (m : List (String × α)) {k : String} (v : α)
    (h : hasK m k = true) :
    alook k (m.map (fun p => if p.1 = k then (k, v) else p)) = some v := by
  induction m with
  | nil => simp [hasK] at h
  | cons p ps ih =>
    by_cases hp : p.1 = k
    · simp [alook, hp]
    · have h' : hasK ps k = true := by simpa [hasK, hp] using h
      simp [alook, hp, ih h']

lemma alook_append_single_self (m : List (String × α)) {k : String} (v : α)
    (h : hasK m k = false) :
    alook k (m ++ [(k, v)]) = some v := by
  induction m with
  | nil => simp [alook]
  | cons p ps ih =>
    have hp : ¬(p.1 = k) := by
      intro he
      simp [hasK, he] at h
    have h' : hasK ps k = false := by simpa [hasK, hp] using h
    simp [alook, hp, ih h']

lemma alook_upsert_self (m : List (String × α)) (k : String) (v : α) :
    alook k (upsert m k v) = some v := by
  unfold upsert
  split
  · rename_i h
    exact alook_map_upd_self m v h
  · rename_i h
    exact alook_append_single_self m v (by simpa using h)

lemma alook_map_upd_ne (m : List (String × α)) {k i : String} (v : α) (h : i ≠ k) :
    alook i (m.map (fun p => if p.1 = k then (k, v) else p)) = alook i m := by
  induction m with
  | nil => rfl
  | cons p ps ih =>
    by_cases hp : p.1 = k
    · have hk : ¬(k = i) := fun he => h he.symm
      simp [alook, hp, hk, ih]
    · by_cases hi : p.1 = i
      · rw [List.map_cons, if_neg hp]
        simp [alook, hi]
      · rw [List.map_cons, if_neg hp]
        simp [alook, hi, ih]

lemma alook_append_single_ne (m : List (String × α)) {k i : String} (v : α)
    (h : i ≠ k) :
    alook i (m ++ [(k, v)]) = alook i m := by
  induction m with
  | nil => simp [alook, Ne.symm h]
  | cons p ps ih =>
    by_cases hi : p.1 = i
    · simp [alook, hi]
    · simp [alook, hi, ih]

lemma alook_upsert_ne (m : List (String × α)) {k i : String} (v : α) (h : i ≠ k) :
    alook i (upsert m k v) = alook i m := by
  unfold upsert
  split
  · exact alook_map_upd_ne m v h
  · exact alook_append_single_ne m v h

lemma alook_eq_none {m : List (String × α)} {i : String} :
    alook i m = none ↔ i ∉ keys m := by
  induction m with
  | nil => simp [alook, keys]
  | cons p ps ih =>
    by_cases hi : p.1 = i
    · simp [alook, hi, keys]
    · have hi' : ¬(i = p.1) := fun he => hi he.symm
      simp only [alook, keys, List.map_cons, List.mem_cons]
      rw [if_neg (by simp [hi])]
      rw [ih]
      simp [keys, hi']

lemma alook_mem_of_mem_keys {m : List (String × α)} {i : String}
    (h : i ∈ keys m) : ∃ v, alook i m = some v := by
  cases hv : alook i m with
  | none => exact absurd (alook_eq_none.1 hv) (by simpa using h)
  | some v => exact ⟨v, rfl⟩

/-! ## dictOf lemmas -/

lemma dictOf_append_single (l : List (String × α)) (p : String × α) :
    dictOf (l ++ [p]) = upsert (dictOf l) p.1 p.2 := by
  simp [dictOf, List.foldl_append]

lemma alook_dictOf (l : List (String × α)) (i : String) :
    alook i (dictOf l) = alook i l.reverse := by
  induction l using List.reverseRecOn with
  | nil => rfl
  | append_singleton l p ih =>
    rw [dictOf_append_single, List.reverse_append]
    by_cases hi : i = p.1
    · subst hi
      simp [alook_upsert_self, alook]
    · rw [alook_upsert_ne _ _ hi, ih]
      exact (if_neg (fun he : p.1 = i => hi he.symm)).symm

lemma mem_keys_dictOf {l : List (String × α)} {i : String} :
    i ∈ keys (dictOf l) ↔ i ∈ keys l := by
  induction l using List.reverseRecOn with
  | nil => simp [dictOf]
  | append_singleton l p ih =>
    rw [dictOf_append_single, mem_keys_upsert, ih]
    simp [keys, or_comm]

lemma keys_nodup_upsert {m : List (String × α)} {k : String} {v : α}
    (h : (keys m).Nodup) : (keys (upsert m k v)).Nodup := by
  unfold upsert
  split
  · rwa [keys_map_upd]
  · rename_i hk
    have hno : k ∉ keys m := by
      intro hm
      exact hk (hasK_iff.2 hm)
    simp only [keys, List.map_append, List.map_cons, List.map_nil]
    rw [List.nodup_append]
    refine ⟨by simpa [keys] using h, List.nodup_singleton k, ?_⟩
    intro x hx hxs
    rw [List.mem_singleton] at hxs
    subst hxs
    exact hno (by simpa [keys] using hx)

lemma keys_nodup_dictOf (l : List (String × α)) : (keys (dictOf l)).Nodup := by
  induction l using List.reverseRecOn with
  | nil => simp [dictOf, keys]
  | append_singleton l p ih =>
    rw [dictOf_append_single]
    exact keys_nodup_upsert ih

lemma mem_upsert_sub {m : List (String × α)} {k : String} {v : α} {q : String × α}
    (h : q ∈ upsert m k v) : q ∈ m ∨ q = (k, v) := by
  unfold upsert at h
  split at h
  · rcases List.mem_map.1 h with ⟨p, hp, he⟩
    by_cases hpk : p.1 = k
    · right
      rw [← he, if_pos hpk]
    · left
      rwa [← he, if_neg hpk]
  · rcases List.mem_append.1 h with hm | hs
    · exact Or.inl hm
    · exact Or.inr (List.mem_singleton.1 hs)

lemma mem_dictOf_sub {l : List (String × α)} {q : String × α}
    (h : q ∈ dictOf l) : q ∈ l := by
  induction l using List.reverseRecOn with
  | nil => simp [dictOf] at h
  | append_singleton l p ih =>
    rw [dictOf_append_single] at h
    rcases mem_upsert_sub h with hm | rfl
    · exact List.mem_append.2 (Or.inl (ih hm))
    · simp

/-! ## Lookup through filter and value-map -/

lemma alook_filter {m : List (String × α)} (P : String × α → Bool) {i : String}
    (h : (keys m).Nodup) :
    alook i (m.filter P) =
      match alook i m with
      | some v => if P (i, v) then some v else none
      | none => none := by
  induction m with
  | nil => rfl
  | cons p ps ih =>
    have hnd : (keys ps).Nodup := (List.nodup_cons.1 (by simpa [keys] using h)).2
    have hni : p.1 ∉ keys ps := (List.nodup_cons.1 (by simpa [keys] using h)).1
    by_cases hpi : p.1 = i
    · subst hpi
      have hpe : (p.1, p.2) = p := rfl
      cases hP : P p with
      | true =>
        simp [List.filter_cons, hP, alook, hpe]
      | false =>
        have h1 : alook p.1 ps = none := alook_eq_none.2 hni
        have h2 : alook p.1 (ps.filter P) = none := by
          refine alook_eq_none.2 (fun hm => hni ?_)
          simp only [keys, List.mem_map] at hm ⊢
          rcases hm with ⟨q, hq, he⟩
          exact ⟨q, List.mem_of_mem_filter hq, he⟩
        simp [List.filter_cons, hP, alook, hpe, h1, h2]
    · cases hP : P p with
      | true => simp [List.filter_cons, hP, alook, hpi, ih hnd]
      | false => simp [List.filter_cons, hP, alook, hpi, ih hnd]

lemma alook_map_val {m : List (String × α)} (g : α → β) (i : String) :
    alook i (m.map (fun p => (p.1, g p.2))) = (alook i m).map g := by
  induction m with
  | nil => rfl
  | cons p ps ih =>
    by_cases hpi : p.1 = i
    · simp [alook, hpi]
    · simp [alook, hpi, ih]

lemma nodup_keys_val_eq {c : List (String × α)} {i : String} {a b : α}
    (h : (keys c).Nodup) (h1 : (i, a) ∈ c) (h2 : (i, b) ∈ c) : a = b := by
  have hinj := List.inj_on_of_nodup_map (f := Prod.fst) (by simpa [keys] using h)
  have he : (i, a) = (i, b) := hinj h1 h2 rfl
  exact congrArg Prod.snd he

/-! ## Claim C1: poll-interval OID banding -/

/-- Claim C1: for every integer poll frequency p, `_get_cpu_interval` returns
the 1-minute average CPU OID when 5 <= p < 300, the 5-minute OID when
300 <= p < 900, the 15-minute OID when p >= 900, and falls back to the
1-minute OID for every other input (including p < 5 and non-positive
values); the result is always exactly one of the three distinct OIDs. -/
theorem C1_cpu_interval_banding (p : Int) :
    ((5 ≤ p ∧ p < 300) → _get_cpu_interval p = jnxOperating1MinAvgCPU) ∧
    ((300 ≤ p ∧ p < 900) → _get_cpu_interval p = jnxOperating5MinAvgCPU) ∧
    (900 ≤ p → _get_cpu_interval p = jnxOperating15MinAvgCPU) ∧
    (p < 5 → _get_cpu_interval p = jnxOperating1MinAvgCPU) ∧
    (_get_cpu_interval p = jnxOperating1MinAvgCPU ∨
      _get_cpu_interval p = jnxOperating5MinAvgCPU ∨
      _get_cpu_interval p = jnxOperating15MinAvgCPU) ∧
    (jnxOperating1MinAvgCPU ≠ jnxOperating5MinAvgCPU ∧
      jnxOperating1MinAvgCPU ≠ jnxOperating15MinAvgCPU ∧
      jnxOperating5MinAvgCPU ≠ jnxOperating15MinAvgCPU) := by
  unfold _get_cpu_interval
  refine ⟨?_, ?_, ?_, ?_, ?_, by decide⟩
  · intro h
    rw [if_pos h]
  · intro h
    rw [if_neg (by omega), if_pos h]
  · intro h
    rw [if_neg (by omega), if_neg (by omega), if_pos h]
  · intro h
    rw [if_neg (by omega), if_neg (by omega), if_neg (by omega)]
  · split_ifs
    · exact Or.inl rfl
    · exact Or.inr (Or.inl rfl)
    · exact Or.inr (Or.inr rfl)
    · exact Or.inl rfl

/-- Witness for C1 at the concrete frequencies 60, 600, 1000 and 1. -/
theorem C1_cpu_interval_banding_witness :
    _get_cpu_interval 60 = jnxOperating1MinAvgCPU ∧
    _get_cpu_interval 600 = jnxOperating5MinAvgCPU ∧
    _get_cpu_interval 1000 = jnxOperating15MinAvgCPU ∧
    _get_cpu_interval 1 = jnxOperating1MinAvgCPU :=
  ⟨(C1_cpu_interval_banding 60).1 (by decide),
   (C1_cpu_interval_banding 600).2.1 (by decide),
   (C1_cpu_interval_banding 1000).2.2.1 (by decide),
   (C1_cpu_interval_banding 1).2.2.2.1 (by decide)⟩

/-! ## Lookup through the identity-mapping pass and the OID map -/

lemma pass_eq_map_pmtEntryF (m : List (String × OidEntry)) :
    _add_power_module_types_mapping m =
      m.map (fun p =>
        if p.1 = "power_module_types" then (p.1, pmtEntryF p.2) else p) := by
  unfold _add_power_module_types_mapping
  refine List.map_congr_left (fun p _ => ?_)
  by_cases hp : p.1 = "power_module_types"
  · rw [if_pos hp, if_pos hp]
    cases p.2 <;> rfl
  · rw [if_neg hp, if_neg hp]

lemma alook_pass_ne {m : List (String × OidEntry)} {k : String}
    (h : k ≠ "power_module_types") :
    alook k (_add_power_module_types_mapping m) = alook k m := by
  rw [pass_eq_map_pmtEntryF]
  induction m with
  | nil => rfl
  | cons p ps ih =>
    by_cases hp : p.1 = "power_module_types"
    · have hpk : ¬(p.1 = k) := by
        rw [hp]
        exact fun he => h he.symm
      rw [List.map_cons, if_pos hp]
      simp [alook, hpk, ih]
    · rw [List.map_cons, if_neg hp]
      by_cases hpk : p.1 = k
      · simp [alook, hpk]
      · simp [alook, hpk, ih]

lemma alook_pass_pmt (m : List (String × OidEntry)) :
    alook "power_module_types" (_add_power_module_types_mapping m)
      = (alook "power_module_types" m).map pmtEntryF := by
  rw [pass_eq_map_pmtEntryF]
  induction m with
  | nil => rfl
  | cons p ps ih =>
    by_cases hp : p.1 = "power_module_types"
    · rw [List.map_cons, if_pos hp]
      simp [alook, hp, ih]
    · rw [List.map_cons, if_neg hp]
      simp [alook, hp, ih]

/-! ## Claim C4: memory_total excludes exactly zero readings -/

lemma alook_memory (w : List (String × Int)) (i : String) :
    alook i (_memory w) = (alook i w.reverse).map (fun v => v * 2 ^ 20) := by
  unfold _memory
  rw [alook_dictOf, ← List.map_reverse]
  generalize w.reverse = l
  induction l with
  | nil => rfl
  | cons p ps ih =>
    by_cases hp : p.1 = i
    · simp [alook, hp]
    · simp only [List.map_cons, alook, if_neg hp]
      exact ih

lemma keys_nodup_memory (w : List (String × Int)) :
    (keys (_memory w)).Nodup := keys_nodup_dictOf _

/-- Claim C4: in the built OID map, the static memory_total table is the
memory table restricted to (exactly) the indices whose raw megabyte
reading was non-zero, each mapped to raw * 2^20, while the memory_used
entry is the constant walk directive on the buffer OID, independent of
every input (in particular of which indices were excluded). -/
theorem C4_memory_total_excludes_zero
    (cpus : List (String × (String × String))) (memWalk : List (String × Int))
    (fans temps : List (String × String)) (power : List (String × (String × String)))
    (sd st : List (String × String)) (sau ssz : List (String × Int))
    (model : String) (freq : Int) (flg : Bool) (i : String) :
    alook "memory_used"
        (_build_oids_map cpus (_memory memWalk) fans power temps sd st sau ssz model freq flg)
      = some (.bulkWalk jnxOperatingBuffer) ∧
    alook "memory_total"
        (_build_oids_map cpus (_memory memWalk) fans power temps sd st sau ssz model freq flg)
      = some (.staticInt ((_memory memWalk).filter (fun p => p.2 != 0))) ∧
    (alook i ((_memory memWalk).filter (fun p => p.2 != 0)) =
      match alook i memWalk.reverse with
      | some v => if v = 0 then none else some (v * 2 ^ 20)
      | none => none) := by
  refine ⟨?_, ?_, ?_⟩
  · unfold _build_oids_map
    rw [alook_pass_ne (by decide)]
    cases flg <;> simp [alook]
  · unfold _build_oids_map
    rw [alook_pass_ne (by decide)]
    cases flg <;> simp [alook]
  · rw [alook_filter _ (keys_nodup_memory memWalk), alook_memory]
    rcases hv : alook i memWalk.reverse with _ | v
    · rfl
    · by_cases h0 : v = 0
      · subst h0
        simp
      · have hne : v * 2 ^ 20 ≠ 0 := mul_ne_zero h0 (by positivity)
        simp [h0, hne]

/-! ## Claim C5: disk group appears iff storage classified and flag set -/

/-- Claim C5: a group named `disk` is in the assembled metrics-group list
iff at least one storage description was classified AND the
include_disk_metrics_group flag is truthy; moreover any group named `disk`
is the complete fixed disk group (no partial disk group is ever emitted). -/
lemma mem_bmg {g : MetricsGroup} (power : List (String × (String × String)))
    (fans : List (String × String)) (sd : List (String × String)) (flg : Bool)
    (hg : g ∈ _build_metrics_groups_conf power fans sd flg) :
    g = tempGroup ∨ g = cpuGroup ∨ g = memoryGroup ∨ g = powerGroup ∨
      g = fanGroup (fans.length : Int) ∨ g = diskGroup := by
  unfold _build_metrics_groups_conf at hg
  rcases List.mem_append.1 hg with h | h
  · rcases List.mem_append.1 h with h | h
    · rcases List.mem_append.1 h with h | h
      · simp only [List.mem_cons, List.not_mem_nil, or_false] at h
        rcases h with h | h | h
        · exact Or.inl h
        · exact Or.inr (Or.inl h)
        · exact Or.inr (Or.inr (Or.inl h))
      · split at h
        · exact Or.inr (Or.inr (Or.inr (Or.inl (List.mem_singleton.1 h))))
        · exact absurd h (List.not_mem_nil g)
    · split at h
      · exact Or.inr (Or.inr (Or.inr (Or.inr (Or.inl (List.mem_singleton.1 h)))))
      · exact absurd h (List.not_mem_nil g)
  · split at h
    · exact Or.inr (Or.inr (Or.inr (Or.inr (Or.inr (List.mem_singleton.1 h)))))
    · exact absurd h (List.not_mem_nil g)

lemma names_bmg (power : List (String × (String × String)))
    (fans : List (String × String)) (sd : List (String × String)) (flg : Bool) :
    (_build_metrics_groups_conf power fans sd flg).map MetricsGroup.group_name =
      ["environment", "cpu", "memory"]
        ++ (if 0 < power.length then ["environment"] else [])
        ++ (if 0 < fans.length then ["environment"] else [])
        ++ (if 0 < sd.length ∧ flg = true then ["disk"] else []) := by
  unfold _build_metrics_groups_conf
  by_cases hp : 0 < power.length <;> by_cases hf : 0 < fans.length <;>
    by_cases hd : 0 < sd.length ∧ flg = true <;>
    simp [hp, hf, hd, tempGroup, cpuGroup, memoryGroup, powerGroup, fanGroup,
      diskGroup]

theorem C5_disk_group_iff (power : List (String × (String × String)))
    (fans : List (String × String)) (sd : List (String × String)) (flg : Bool) :
    ((∃ g ∈ _build_metrics_groups_conf power fans sd flg, g.group_name = "disk") ↔
      (0 < sd.length ∧ flg = true)) ∧
    (∀ g ∈ _build_metrics_groups_conf power fans sd flg,
      g.group_name = "disk" → g = diskGroup) := by
  constructor
  · rw [show (∃ g ∈ _build_metrics_groups_conf power fans sd flg,
        g.group_name = "disk") ↔
        "disk" ∈ (_build_metrics_groups_conf power fans sd flg).map
          MetricsGroup.group_name from (List.mem_map).symm]
    rw [names_bmg]
    by_cases hp : 0 < power.length <;> by_cases hf : 0 < fans.length <;>
      by_cases hd : 0 < sd.length ∧ flg = true <;>
      simp [hp, hf, hd]
  · intro g hg hname
    rcases mem_bmg power fans sd flg hg with rfl | rfl | rfl | rfl | rfl | rfl
    · simp [tempGroup] at hname
    · simp [cpuGroup] at hname
    · simp [memoryGroup] at hname
    · simp [powerGroup] at hname
    · simp [fanGroup] at hname
    · rfl

/-- Witness for C5: with one storage description and the flag set, the disk
group is emitted; the instantiating input also discharges the completeness
part at the disk group itself. -/
theorem C5_disk_group_iff_witness :
    (∃ g ∈ _build_metrics_groups_conf [] [] [("1", "d")] true,
      g.group_name = "disk") ∧
    (∀ g ∈ _build_metrics_groups_conf [] [] [("1", "d")] true,
      g.group_name = "disk" → g = diskGroup) :=
  ⟨(C5_disk_group_iff [] [] [("1", "d")] true).1.mpr (by simp),
   (C5_disk_group_iff [] [] [("1", "d")] true).2⟩

/-! ## Claim C7: storage_total_bytes is the join of size and units walks -/

lemma alook_storage_size (sizeWalk unitsWalk : List (String × Int)) (i : String) :
    alook i (_storage_size sizeWalk unitsWalk) =
      match alook i (dictOf unitsWalk) with
      | none => none
      | some u => (alook i sizeWalk.reverse).map (fun v => v * u) := by
  unfold _storage_size _storage_allocation_units
  dsimp only
  induction sizeWalk using List.reverseRecOn with
  | nil =>
    cases alook i (dictOf unitsWalk) <;> rfl
  | append_singleton sw p ih =>
    rw [List.foldl_append, List.foldl_cons, List.foldl_nil, List.reverse_append]
    simp only [List.reverse_cons, List.reverse_nil, List.nil_append,
      List.singleton_append]
    rcases hpu : alook p.1 (dictOf unitsWalk) with _ | u
    · dsimp only
      rw [ih]
      by_cases hpi : p.1 = i
      · subst hpi
        rw [show alook p.1 (dictOf unitsWalk) = none from hpu]
      · rcases alook i (dictOf unitsWalk) with _ | u
        · rfl
        · simp [alook, hpi]
    · dsimp only
      by_cases hpi : p.1 = i
      · subst hpi
        rw [alook_upsert_self,
          show alook p.1 (dictOf unitsWalk) = some u from hpu]
        simp [alook]
      · rw [alook_upsert_ne _ _ (Ne.symm hpi), ih]
        rcases alook i (dictOf unitsWalk) with _ | w
        · rfl
        · simp [alook, hpi]

lemma mem_keys_iff_alook_ne {m : List (String × α)} {i : String} :
    i ∈ keys m ↔ alook i m ≠ none := by
  constructor
  · intro hm hn
    exact (alook_eq_none.1 hn) hm
  · intro hne
    by_contra hm
    exact hne (alook_eq_none.2 hm)

lemma mem_keys_reverse {m : List (String × α)} {i : String} :
    i ∈ keys m.reverse ↔ i ∈ keys m := by
  simp [keys, List.mem_map]

/-- Claim C7: storage_total_bytes contains exactly the indices present in
both the storage-size walk and the allocation-units walk, each mapped to
raw size times the allocation-unit value; indices of the description walk
are all kept in storage_description regardless; with the disk flag on, the
built OID map carries exactly these two tables. -/
theorem C7_storage_join (sizeWalk unitsWalk : List (String × Int))
    (descWalk : List (String × String)) (i : String)
    (cpus : List (String × (String × String))) (memory : List (String × Int))
    (fans temps st : List (String × String)) (power : List (String × (String × String)))
    (model : String) (freq : Int) :
    (alook i (_storage_size sizeWalk unitsWalk) =
      match alook i unitsWalk.reverse with
      | none => none
      | some u => (alook i sizeWalk.reverse).map (fun v => v * u)) ∧
    (i ∈ keys (_storage_size sizeWalk unitsWalk) ↔
      i ∈ keys sizeWalk ∧ i ∈ keys unitsWalk) ∧
    (i ∈ keys (_storage_descriptions descWalk) ↔ i ∈ keys descWalk) ∧
    alook "storage_total_bytes"
        (_build_oids_map cpus memory fans power temps
          (_storage_descriptions descWalk) st
          (_storage_allocation_units unitsWalk)
          (_storage_size sizeWalk unitsWalk) model freq true)
      = some (.staticInt (_storage_size sizeWalk unitsWalk)) ∧
    alook "storage_description"
        (_build_oids_map cpus memory fans power temps
          (_storage_descriptions descWalk) st
          (_storage_allocation_units unitsWalk)
          (_storage_size sizeWalk unitsWalk) model freq true)
      = some (.staticStr (_storage_descriptions descWalk)) := by
  have hchar : alook i (_storage_size sizeWalk unitsWalk) =
      match alook i unitsWalk.reverse with
      | none => none
      | some u => (alook i sizeWalk.reverse).map (fun v => v * u) := by
    rw [alook_storage_size, alook_dictOf]
  refine ⟨hchar, ?_, mem_keys_dictOf, ?_, ?_⟩
  · rw [mem_keys_iff_alook_ne, hchar]
    rcases hu : alook i unitsWalk.reverse with _ | u
    · have : i ∉ keys unitsWalk := by
        have := alook_eq_none.1 hu
        exact fun hm => this (mem_keys_reverse.2 hm)
      simp [this]
    · have hmu : i ∈ keys unitsWalk := by
        refine mem_keys_reverse.1 (mem_keys_iff_alook_ne.2 ?_)
        simp [hu]
      rcases hs : alook i sizeWalk.reverse with _ | v
      · have : i ∉ keys sizeWalk := by
          have := alook_eq_none.1 hs
          exact fun hm => this (mem_keys_reverse.2 hm)
        simp [this, hmu]
      · have hms : i ∈ keys sizeWalk := by
          refine mem_keys_reverse.1 (mem_keys_iff_alook_ne.2 ?_)
          simp [hs]
        simp [hms, hmu]
  · unfold _build_oids_map
    rw [alook_pass_ne (by decide)]
    simp [alook]
  · unfold _build_oids_map
    rw [alook_pass_ne (by decide)]
    simp [alook]

/-! ## Claims C8 and C10: the power-module-type identity mapping -/

lemma alook_some_mem {m : List (String × α)} {i : String} {v : α}
    (h : alook i m = some v) : (i, v) ∈ m := by
  induction m with
  | nil => simp [alook] at h
  | cons p ps ih =>
    by_cases hp : p.1 = i
    · rw [alook, if_pos hp] at h
      have hv : p.2 = v := by injection h
      have hiv : (i, v) = p := by
        rw [Prod.ext_iff]
        exact ⟨hp.symm, hv.symm⟩
      rw [hiv]
      exact List.mem_cons_self p ps
    · rw [alook, if_neg hp] at h
      exact List.mem_cons_of_mem p (ih h)

lemma typesMapping_diag (vs : List (String × String)) :
    ∀ p ∈ typesMapping vs, p.1 = p.2 := by
  intro p hp
  have hpp := mem_dictOf_sub hp
  rcases List.mem_map.1 hpp with ⟨t, _, he⟩
  rw [← he]

lemma typesMapping_covers (vs : List (String × String)) :
    ∀ t ∈ valuesOf vs, t ∈ keys (typesMapping vs) := by
  intro t ht
  unfold typesMapping
  rw [mem_keys_dictOf]
  simp only [keys, List.map_map, List.mem_map]
  exact ⟨t, ht, rfl⟩

lemma values_upsert_sub {m : List (String × α)} {k : String} {v : α} {w : α}
    (h : w ∈ valuesOf (upsert m k v)) : w ∈ valuesOf m ∨ w = v := by
  rcases List.mem_map.1 h with ⟨q, hq, he⟩
  rcases mem_upsert_sub hq with hm | rfl
  · exact Or.inl (List.mem_map.2 ⟨q, hm, he⟩)
  · exact Or.inr he.symm

lemma goodKey_upsert_diag {m : List (String × String)} {w t : String}
    (h : goodKey m w) : goodKey (upsert m t t) w := by
  constructor
  · exact mem_keys_upsert.2 (Or.inr h.1)
  · intro p hp hpw
    rcases mem_upsert_sub hp with hm | rfl
    · exact h.2 p hm hpw
    · exact hpw.symm ▸ rfl

lemma goodKey_upsert_self (m : List (String × String)) (t : String) :
    goodKey (upsert m t t) t := by
  constructor
  · exact mem_keys_upsert.2 (Or.inl rfl)
  · intro p hp hpt
    unfold upsert at hp
    split at hp
    · rcases List.mem_map.1 hp with ⟨q, _, he⟩
      by_cases hqt : q.1 = t
      · rw [← he, if_pos hqt]
      · rw [← he, if_neg hqt] at hpt
        exact absurd hpt hqt
    · rename_i hk
      rcases List.mem_append.1 hp with hq | hq
      · exfalso
        apply hk
        unfold hasK
        exact List.any_eq_true.2 ⟨p, hq, by simp [hpt]⟩
      · rw [List.mem_singleton.1 hq]

lemma diagFold_good : ∀ (ts acc : List (String × String)),
    (∀ p ∈ ts, p.1 = p.2) →
    (∀ w ∈ valuesOf acc, goodKey acc w ∨ w ∈ keys ts) →
    ∀ w ∈ valuesOf (ts.foldl (fun a p => upsert a p.1 p.2) acc),
      goodKey (ts.foldl (fun a p => upsert a p.1 p.2) acc) w := by
  intro ts
  induction ts with
  | nil =>
    intro acc _ hacc w hw
    rcases hacc w hw with hg | hk
    · exact hg
    · simp [keys] at hk
  | cons q ts ih =>
    intro acc hdiag hacc w hw
    rw [List.foldl_cons] at hw ⊢
    have hq2 : q.1 = q.2 := hdiag q (List.mem_cons_self q ts)
    refine ih (upsert acc q.1 q.2)
      (fun p hp => hdiag p (List.mem_cons_of_mem q hp)) ?_ w hw
    intro w' hw'
    rcases values_upsert_sub hw' with hv | rfl
    · rcases hacc w' hv with hg | hk
      · left
        rw [← hq2]
        exact goodKey_upsert_diag hg
      · have hk2 : w' = q.1 ∨ w' ∈ keys ts := by
          unfold keys at hk
          rw [List.map_cons] at hk
          exact List.mem_cons.1 hk
        rcases hk2 with rfl | hk'
        · left
          rw [← hq2]
          exact goodKey_upsert_self acc q.1
        · exact Or.inr hk'
    · left
      rw [← hq2]
      exact goodKey_upsert_self acc q.1

lemma addMappingTable_good (vs : List (String × String)) :
    ∀ T ∈ valuesOf (addMappingTable vs), goodKey (addMappingTable vs) T := by
  unfold addMappingTable
  exact diagFold_good (typesMapping vs) vs (typesMapping_diag vs)
    (fun w hw => Or.inr (typesMapping_covers vs w hw))

lemma addMappingTable_lookup (vs : List (String × String)) :
    ∀ T ∈ valuesOf (addMappingTable vs), alook T (addMappingTable vs) = some T := by
  intro T hT
  have hg := addMappingTable_good vs T hT
  obtain ⟨v, hv⟩ := alook_mem_of_mem_keys hg.1
  have hvT : v = T := hg.2 (T, v) (alook_some_mem hv) rfl
  rw [hv, hvT]

lemma upsert_eq_self {m : List (String × String)} {w : String}
    (h : goodKey m w) : upsert m w w = m := by
  unfold upsert
  rw [if_pos (hasK_iff.2 h.1)]
  have hid : ∀ p ∈ m, (if p.1 = w then (w, w) else p) = p := by
    intro p hp
    by_cases hpw : p.1 = w
    · rw [if_pos hpw, Prod.ext_iff]
      exact ⟨hpw.symm, (h.2 p hp hpw).symm⟩
    · rw [if_neg hpw]
  rw [List.map_congr_left hid]
  simp

lemma foldl_upsert_id (A : List (String × String)) :
    ∀ l : List (String × String), (∀ p ∈ l, p.1 = p.2 ∧ goodKey A p.1) →
    l.foldl (fun acc p => upsert acc p.1 p.2) A = A := by
  intro l
  induction l with
  | nil => intro _; rfl
  | cons q l ih =>
    intro h
    rw [List.foldl_cons]
    have hq := h q (List.mem_cons_self q l)
    rw [← hq.1, upsert_eq_self hq.2]
    exact ih (fun p hp => h p (List.mem_cons_of_mem q hp))

lemma addMappingTable_idem (vs : List (String × String)) :
    addMappingTable (addMappingTable vs) = addMappingTable vs := by
  set A := addMappingTable vs with hA
  have hgood : ∀ T ∈ valuesOf A, goodKey A T := by
    rw [hA]
    exact addMappingTable_good vs
  show addMappingTable A = A
  unfold addMappingTable
  apply foldl_upsert_id
  intro p hp
  have hd := typesMapping_diag A p hp
  have hpp := mem_dictOf_sub hp
  rcases List.mem_map.1 hpp with ⟨t, ht, he⟩
  refine ⟨hd, hgood p.1 ?_⟩
  rw [← he]
  exact ht

lemma pmtValues_build (cpus : List (String × (String × String)))
    (memory : List (String × Int)) (fans temps : List (String × String))
    (power : List (String × (String × String)))
    (sd st : List (String × String)) (sau ssz : List (String × Int))
    (model : String) (freq : Int) (flg : Bool) :
    pmtValues (_build_oids_map cpus memory fans power temps sd st sau ssz model freq flg)
      = addMappingTable (power.map (fun p => (p.1, p.2.2))) := by
  unfold _build_oids_map pmtValues
  rw [alook_pass_pmt]
  cases flg <;> simp [alook, pmtEntryF]

/-- Claim C8: after the OID map is built, every canonical power-module type
T occurring as a value of the power_module_types table is also a key of
that table mapped to itself. -/
theorem C8_pmt_identity (cpus : List (String × (String × String)))
    (memory : List (String × Int)) (fans temps : List (String × String))
    (power : List (String × (String × String)))
    (sd st : List (String × String)) (sau ssz : List (String × Int))
    (model : String) (freq : Int) (flg : Bool) :
    ∀ T, T ∈ valuesOf (pmtValues
        (_build_oids_map cpus memory fans power temps sd st sau ssz model freq flg)) →
      alook T (pmtValues
        (_build_oids_map cpus memory fans power temps sd st sau ssz model freq flg))
        = some T := by
  rw [pmtValues_build]
  exact addMappingTable_lookup _

/-- Witness for C8 on a single classified PEM module. -/
theorem C8_pmt_identity_witness :
    alook "PEM" (pmtValues
        (_build_oids_map [] [] [] [("2", ("PEM 0", "PEM"))] [] [] [] [] []
          "unknown" 60 false))
      = some "PEM" :=
  C8_pmt_identity [] [] [] [] [("2", ("PEM 0", "PEM"))] [] [] [] [] "unknown" 60
    false "PEM" (by decide)

/-- Claim C10: the identity-mapping pass is idempotent: applying
`_add_power_module_types_mapping` twice to any OID map yields the same
power_module_types value table as applying it once. -/
theorem C10_pmt_pass_idempotent (m : List (String × OidEntry)) :
    pmtValues (_add_power_module_types_mapping (_add_power_module_types_mapping m))
      = pmtValues (_add_power_module_types_mapping m) := by
  unfold pmtValues
  rw [alook_pass_pmt, alook_pass_pmt]
  rcases alook "power_module_types" m with _ | e
  · rfl
  · cases e <;> simp [pmtEntryF, addMappingTable_idem]

/-! ## Claim C6: the temperature sanity bound is strict on both sides -/

lemma tempSensorsAux_keys (bound : Int) (catalog : List (String × String)) :
    ∀ (walk : List (String × Int)) (acc m : List (String × String)),
      tempSensorsAux bound catalog walk acc = .ok m →
      ∀ i, (i ∈ keys m ↔
        i ∈ keys acc ∨ ∃ p ∈ walk, p.1 = i ∧ 0 < p.2 ∧ p.2 < bound) := by
  intro walk
  induction walk with
  | nil =>
    intro acc m h i
    have ham : acc = m := by
      simpa [tempSensorsAux] using h
    subst ham
    simp
  | cons q rest ih =>
    intro acc m h i
    obtain ⟨j, v⟩ := q
    simp only [tempSensorsAux] at h
    by_cases hr : 0 < v ∧ v < bound
    · rw [if_pos hr] at h
      rcases halk : alook j catalog with _ | name
      · rw [halk] at h
        simp at h
      · rw [halk] at h
        rw [ih _ _ h i, mem_keys_upsert]
        simp only [List.mem_cons]
        constructor
        · rintro ((hij | hacc) | ⟨p, hp, he, hr1, hr2⟩)
          · exact Or.inr ⟨(j, v), Or.inl rfl, hij.symm, hr.1, hr.2⟩
          · exact Or.inl hacc
          · exact Or.inr ⟨p, Or.inr hp, he, hr1, hr2⟩
        · rintro (hacc | ⟨p, hp | hp, he, hr1, hr2⟩)
          · exact Or.inl (Or.inr hacc)
          · subst hp
            exact Or.inl (Or.inl he.symm)
          · exact Or.inr ⟨p, hp, he, hr1, hr2⟩
    · rw [if_neg hr] at h
      rw [ih _ _ h i]
      simp only [List.mem_cons]
      constructor
      · rintro (hacc | ⟨p, hp, he, hr1, hr2⟩)
        · exact Or.inl hacc
        · exact Or.inr ⟨p, Or.inr hp, he, hr1, hr2⟩
      · rintro (hacc | ⟨p, hp | hp, he, hr1, hr2⟩)
        · exact Or.inl hacc
        · subst hp
          exact absurd ⟨hr1, hr2⟩ hr
        · exact Or.inr ⟨p, hp, he, hr1, hr2⟩

/-- Claim C6: whenever `_temp_sensors` succeeds, an index is in the
temperature-sensor set iff some walk entry for that index has a value
strictly between 0 and the sanity bound; the boundary values 0 and the
bound itself are excluded. -/
theorem C6_temp_bound (bound : Int) (catalog : List (String × String))
    (walk : List (String × Int)) (m : List (String × String))
    (h : _temp_sensors bound catalog walk = .ok m) (i : String) :
    i ∈ keys m ↔ ∃ p ∈ walk, p.1 = i ∧ 0 < p.2 ∧ p.2 < bound := by
  have hx := tempSensorsAux_keys bound catalog walk [] m h i
  simpa [keys] using hx

/-- Witness for C6: bound 100, one in-range reading, one zero reading and
one reading equal to the bound; only the in-range index is classified. -/
theorem C6_temp_bound_witness :
    ("1" ∈ keys [("1", "Sensor")] ↔
      ∃ p ∈ [("1", (50 : Int)), ("2", 0), ("3", 100)],
        p.1 = "1" ∧ 0 < p.2 ∧ p.2 < 100) :=
  C6_temp_bound 100 [("1", "Sensor")] [("1", 50), ("2", 0), ("3", 100)]
    [("1", "Sensor")] rfl "1"

/-! ## Claim C2: classifier behaviour on an empty entity catalog -/

lemma tempAux_ok_of_none (bound : Int) (acc : List (String × String)) :
    ∀ w : List (String × Int), (∀ p ∈ w, ¬(0 < p.2 ∧ p.2 < bound)) →
      tempSensorsAux bound [] w acc = .ok acc := by
  intro w
  induction w with
  | nil => intro _; rfl
  | cons q rest ih =>
    intro h
    obtain ⟨j, v⟩ := q
    simp only [tempSensorsAux]
    rw [if_neg (h (j, v) (List.mem_cons_self _ _))]
    exact ih (fun p hp => h p (List.mem_cons_of_mem _ hp))

lemma temp_error_of_inrange (bound : Int) :
    ∀ w : List (String × Int), (∃ p ∈ w, 0 < p.2 ∧ p.2 < bound) →
      ∃ i, _temp_sensors bound [] w = .error i := by
  intro w
  induction w with
  | nil =>
    intro hex
    simp at hex
  | cons q rest ih =>
    intro hex
    obtain ⟨j, v⟩ := q
    by_cases hr : 0 < v ∧ v < bound
    · refine ⟨j, ?_⟩
      unfold _temp_sensors
      simp only [tempSensorsAux]
      rw [if_pos hr]
      rfl
    · have hex' : ∃ p ∈ rest, 0 < p.2 ∧ p.2 < bound := by
        rcases hex with ⟨p, hp, hpr⟩
        rcases List.mem_cons.1 hp with rfl | hp'
        · exact absurd hpr hr
        · exact ⟨p, hp', hpr⟩
      obtain ⟨i, hi⟩ := ih hex'
      refine ⟨i, ?_⟩
      unfold _temp_sensors at hi ⊢
      simp only [tempSensorsAux]
      rw [if_neg hr]
      exact hi

/-- Amended Claim C2: on an empty entity catalog the regex classifiers
(`_fans`, `_power_modules`) return empty sets without error; the
temperature classifier returns an empty set without error only when its
walk contains no in-range reading, and raises a KeyError (error with the
missing index) as soon as an in-range reading's index has to be looked up;
the CPU classifier returns an empty set only for an empty walk and raises
a KeyError at the first walk index otherwise. -/
theorem C2_empty_catalog_amended (bound : Int) (tempWalk : List (String × Int)) :
    (_fans [] = [] ∧ _power_modules [] = []) ∧
    ((∀ p ∈ tempWalk, ¬(0 < p.2 ∧ p.2 < bound)) →
      _temp_sensors bound [] tempWalk = .ok []) ∧
    ((∃ p ∈ tempWalk, 0 < p.2 ∧ p.2 < bound) →
      ∃ i, _temp_sensors bound [] tempWalk = .error i) ∧
    (_cpus [] [] = .ok []) ∧
    (∀ j v (rest : List (String × Int)), _cpus [] ((j, v) :: rest) = .error j) :=
  ⟨⟨rfl, rfl⟩,
   fun h => tempAux_ok_of_none bound [] tempWalk h,
   temp_error_of_inrange bound tempWalk,
   rfl,
   fun _ _ _ => rfl⟩

/-- Counterexample to Claim C2 as stated: with an empty catalog and a
temperature walk containing one in-range reading whose index is absent
from the catalog, `_temp_sensors` raises a KeyError instead of returning
an empty set. -/
theorem C2_counterexample :
    _temp_sensors 2500 [] [("1", 50)] = Except.error "1" := rfl

/-- Witness for the amended C2 at concrete walks: an out-of-range-only
temperature walk yields the empty set, an in-range one yields an error,
and a non-empty CPU walk yields an error at its first index. -/
theorem C2_empty_catalog_amended_witness :
    _fans [] = [] ∧
    _temp_sensors 2500 [] [("1", (0 : Int)), ("4", 2500)] = .ok [] ∧
    (∃ i, _temp_sensors 2500 [] [("2", (50 : Int))] = .error i) ∧
    _cpus [] [("3", (1 : Int))] = .error "3" :=
  ⟨(C2_empty_catalog_amended 2500 []).1.1,
   (C2_empty_catalog_amended 2500 [("1", 0), ("4", 2500)]).2.1 (by decide),
   (C2_empty_catalog_amended 2500 [("2", 50)]).2.2.1 (by decide),
   (C2_empty_catalog_amended 2500 []).2.2.2.2 "3" 1 []⟩

/-! ## Claim C3: generic lemmas about the pattern-loop folds -/

lemma mem_upsert_key_eq {m : List (String × α)} {k : String} {v : α}
    {p : String × α} (hp : p ∈ upsert m k v) (hk : p.1 = k) : p = (k, v) := by
  unfold upsert at hp
  split at hp
  · rcases List.mem_map.1 hp with ⟨q, _, he⟩
    by_cases hq : q.1 = k
    · rw [← he, if_pos hq]
    · rw [← he, if_neg hq] at hk
      exact absurd hk hq
  · rename_i hno
    rcases List.mem_append.1 hp with hm | hs
    · exfalso
      apply hno
      unfold hasK
      exact List.any_eq_true.2 ⟨p, hm, by simp [hk]⟩
    · exact List.mem_singleton.1 hs

lemma upsert_upsert_same (m : List (String × α)) (k : String) (v : α) :
    upsert (upsert m k v) k v = upsert m k v := by
  have hk : hasK (upsert m k v) k = true :=
    hasK_iff.2 (mem_keys_upsert.2 (Or.inl rfl))
  conv_lhs => rw [upsert]
  rw [if_pos hk]
  have hid : ∀ p ∈ upsert m k v, (if p.1 = k then (k, v) else p) = p := by
    intro p hp
    by_cases hpk : p.1 = k
    · rw [if_pos hpk, ← mem_upsert_key_eq hp hpk]
    · rw [if_neg hpk]
  rw [List.map_congr_left hid]
  simp

lemma fold_absorb {π : Type} {γ : Type} (pats : List π) (cond : π → Bool)
    (val : π → γ) (i : String) (v : γ) (acc : List (String × γ))
    (h : ∀ q ∈ pats, cond q = true → val q = v) :
    pats.foldl (fun a pb => if cond pb then upsert a i (val pb) else a)
        (upsert acc i v)
      = upsert acc i v := by
  induction pats with
  | nil => rfl
  | cons q rest ih =>
    rw [List.foldl_cons]
    by_cases hq : cond q = true
    · rw [if_pos hq, h q (List.mem_cons_self q rest) hq, upsert_upsert_same]
      exact ih (fun p hp hc => h p (List.mem_cons_of_mem q hp) hc)
    · rw [if_neg hq]
      exact ih (fun p hp hc => h p (List.mem_cons_of_mem q hp) hc)

lemma patFold_eq_first {π : Type} {γ : Type} (pats : List π) (cond : π → Bool)
    (val : π → γ) (i : String) (acc : List (String × γ))
    (hcons : ∀ p ∈ pats, ∀ q ∈ pats, cond p = true → cond q = true → val p = val q) :
    pats.foldl (fun a pb => if cond pb then upsert a i (val pb) else a) acc
      = match pats.find? cond with
        | some pb => upsert acc i (val pb)
        | none => acc := by
  induction pats with
  | nil => rfl
  | cons q rest ih =>
    rw [List.foldl_cons]
    by_cases hq : cond q = true
    · rw [if_pos hq, List.find?_cons_of_pos _ hq]
      exact fold_absorb rest cond val i (val q) acc
        (fun p hp hc =>
          hcons p (List.mem_cons_of_mem q hp) q (List.mem_cons_self q rest) hc hq)
    · rw [if_neg hq, List.find?_cons_of_neg _ (by simpa using hq)]
      exact ih (fun p hp q' hq' hc hc' =>
        hcons p (List.mem_cons_of_mem q hp) q' (List.mem_cons_of_mem q hq') hc hc')

lemma patFold_keys {π : Type} {γ : Type} (pats : List π) (cond : π → Bool)
    (val : π → γ) (i : String) (acc : List (String × γ)) (j : String) :
    j ∈ keys (pats.foldl (fun a pb => if cond pb then upsert a i (val pb) else a) acc)
      ↔ (j = i ∧ pats.any cond = true) ∨ j ∈ keys acc := by
  induction pats generalizing acc with
  | nil => simp
  | cons q rest ih =>
    rw [List.foldl_cons]
    by_cases hq : cond q = true
    · rw [if_pos hq, ih]
      rw [mem_keys_upsert]
      simp [hq]
      tauto
    · rw [if_neg hq, ih]
      simp [List.any_cons, hq]

lemma patFold_keys_nodup {π : Type} {γ : Type} (pats : List π) (cond : π → Bool)
    (val : π → γ) (i : String) (acc : List (String × γ))
    (h : (keys acc).Nodup) :
    (keys (pats.foldl (fun a pb => if cond pb then upsert a i (val pb) else a) acc)).Nodup := by
  induction pats generalizing acc with
  | nil => exact h
  | cons q rest ih =>
    rw [List.foldl_cons]
    by_cases hq : cond q = true
    · rw [if_pos hq]
      exact ih _ (keys_nodup_upsert h)
    · rw [if_neg hq]
      exact ih _ h

lemma catFold_keys_sub {π : Type} {γ : Type} (pats : List π)
    (condF : π → String → Bool) (valF : π → String → γ) (i : String) :
    ∀ (c : List (String × String)) (acc : List (String × γ)),
      i ∈ keys (c.foldl (fun a p =>
        pats.foldl (fun a2 pb =>
          if condF pb p.2 then upsert a2 p.1 (valF pb p.2) else a2) a) acc) →
      i ∈ keys acc ∨ ∃ nm, (i, nm) ∈ c ∧ pats.any (fun pb => condF pb nm) = true := by
  intro c
  induction c with
  | nil => intro acc h; exact Or.inl h
  | cons p rest ih =>
    intro acc h
    rw [List.foldl_cons] at h
    rcases ih _ h with hacc | ⟨nm, hnm, hany⟩
    · rcases (patFold_keys pats (fun pb => condF pb p.2) (fun pb => valF pb p.2)
          p.1 acc i).1 hacc with ⟨rfl, hany⟩ | hacc'
      · refine Or.inr ⟨p.2, ?_, hany⟩
        exact List.mem_cons_self p rest
      · exact Or.inl hacc'
    · exact Or.inr ⟨nm, List.mem_cons_of_mem p hnm, hany⟩

lemma catFold_keys_nodup {π : Type} {γ : Type} (pats : List π)
    (condF : π → String → Bool) (valF : π → String → γ) :
    ∀ (c : List (String × String)) (acc : List (String × γ)),
      (keys acc).Nodup →
      (keys (c.foldl (fun a p =>
        pats.foldl (fun a2 pb =>
          if condF pb p.2 then upsert a2 p.1 (valF pb p.2) else a2) a) acc)).Nodup := by
  intro c
  induction c with
  | nil => intro acc h; exact h
  | cons p rest ih =>
    intro acc h
    rw [List.foldl_cons]
    exact ih _ (patFold_keys_nodup _ _ _ _ _ h)

lemma catFold_eq_first {π : Type} {γ : Type} (pats : List π)
    (condF : π → String → Bool) (valF : π → String → γ)
    (hcons : ∀ nm, ∀ p ∈ pats, ∀ q ∈ pats,
      condF p nm = true → condF q nm = true → valF p nm = valF q nm) :
    ∀ (c : List (String × String)) (acc : List (String × γ)),
      c.foldl (fun a p =>
        pats.foldl (fun a2 pb =>
          if condF pb p.2 then upsert a2 p.1 (valF pb p.2) else a2) a) acc
        = c.foldl (fun a p =>
            match pats.find? (fun pb => condF pb p.2) with
            | some pb => upsert a p.1 (valF pb p.2)
            | none => a) acc := by
  intro c
  induction c with
  | nil => intro acc; rfl
  | cons p rest ih =>
    intro acc
    rw [List.foldl_cons, List.foldl_cons,
      patFold_eq_first pats (fun pb => condF pb p.2) (fun pb => valF pb p.2) p.1 acc
        (fun a ha b hb h1 h2 => hcons p.2 a ha b hb h1 h2)]
    exact ih _


/-! ## Claim C3: regex shape lemmas -/

lemma mtch_rchars_ex (l : List Char) (r : Regex) :
    ∀ (s : List Char) (k : List Char → Bool), mtch (rchars l r) s k = true →
      ∃ t, s = l ++ t ∧ mtch r t k = true := by
  induction l with
  | nil => intro s k h; exact ⟨s, rfl, h⟩
  | cons c cs ih =>
    intro s k h
    cases s with
    | nil => simp [rchars, mtch] at h
    | cons a t =>
      simp only [rchars, mtch] at h
      rw [Bool.and_eq_true, beq_iff_eq] at h
      obtain ⟨rfl, h2⟩ := h
      obtain ⟨t', rfl, h3⟩ := ih t k h2
      exact ⟨t', rfl, h3⟩

lemma mtch_cls_ex {p : Char → Bool} {s : List Char} {k : List Char → Bool}
    (h : mtch (.cls p) s k = true) :
    ∃ a t, s = a :: t ∧ p a = true ∧ k t = true := by
  cases s with
  | nil => simp [mtch] at h
  | cons a t =>
    simp only [mtch] at h
    rw [Bool.and_eq_true] at h
    exact ⟨a, t, rfl, h.1, h.2⟩

lemma pow1_head {s : List Char} (h : mtchPre pow1 s = true) :
    ∃ t, s = 'P' :: 'D' :: t := by
  unfold mtchPre pow1 at h
  obtain ⟨t, rfl, _⟩ := mtch_rchars_ex _ _ _ _ h
  exact ⟨_, rfl⟩

lemma pow2_head {s : List Char} (h : mtchPre pow2 s = true) :
    ∃ t, s = 'P' :: 'E' :: t := by
  unfold mtchPre pow2 at h
  obtain ⟨t, rfl, _⟩ := mtch_rchars_ex _ _ _ _ h
  exact ⟨_, rfl⟩

lemma pow3_head {s : List Char} (h : mtchPre pow3 s = true) :
    ∃ t, s = 'P' :: 'S' :: t := by
  unfold mtchPre pow3 at h
  obtain ⟨t, rfl, _⟩ := mtch_rchars_ex _ _ _ _ h
  exact ⟨_, rfl⟩

lemma pow4_head {s : List Char} (h : mtchPre pow4 s = true) :
    ∃ t, s = 'P' :: 'o' :: t := by
  unfold mtchPre pow4 at h
  obtain ⟨t, rfl, _⟩ := mtch_rchars_ex _ _ _ _ h
  exact ⟨_, rfl⟩

lemma pow5_head {s : List Char} (h : mtchPre pow5 s = true) :
    ∃ t, s = 'P' :: 'o' :: t := by
  unfold mtchPre pow5 at h
  obtain ⟨t, rfl, _⟩ := mtch_rchars_ex _ _ _ _ h
  exact ⟨_, rfl⟩

lemma mtch_char_ex {c : Char} {s : List Char} {k : List Char → Bool}
    (h : mtch (.char c) s k = true) :
    ∃ t, s = c :: t ∧ k t = true := by
  cases s with
  | nil => simp [mtch] at h
  | cons a t =>
    simp only [mtch] at h
    rw [Bool.and_eq_true, beq_iff_eq] at h
    refine ⟨t, ?_, h.2⟩
    rw [h.1]

lemma pow6_shape {s : List Char} (h : mtchPre pow6 s = true) :
    ∃ d₁ d₂ t, s = 'n' :: 'o' :: 'd' :: 'e' :: d₁ :: ' ' :: 'P' :: 'E' :: 'M' :: ' ' :: d₂ :: t
      ∧ digitB d₂ = true := by
  unfold mtchPre pow6 at h
  obtain ⟨t₀, rfl, h0⟩ := mtch_rchars_ex _ _ _ _ h
  simp only [mtch] at h0
  obtain ⟨d₁, t₁, rfl, _, h1⟩ := mtch_cls_ex h0
  obtain ⟨t₂, rfl, h2⟩ := mtch_char_ex h1
  obtain ⟨t₃, rfl, h3⟩ := mtch_char_ex h2
  obtain ⟨t₄, rfl, h4⟩ := mtch_char_ex h3
  obtain ⟨t₅, rfl, h5⟩ := mtch_char_ex h4
  obtain ⟨t₆, rfl, h6⟩ := mtch_char_ex h5
  obtain ⟨d₂, t₇, rfl, hd₂, _⟩ := mtch_cls_ex h6
  exact ⟨d₁, d₂, t₇, rfl, hd₂⟩

lemma pow6_head {s : List Char} (h : mtchPre pow6 s = true) :
    ∃ t, s = 'n' :: t := by
  obtain ⟨d₁, d₂, t, rfl, _⟩ := pow6_shape h
  exact ⟨_, rfl⟩

lemma fan1_head {s : List Char} (h : mtchPre fan1 s = true) :
    ∃ t, s = 'F' :: t := by
  unfold mtchPre fan1 at h
  obtain ⟨t, rfl, _⟩ := mtch_rchars_ex _ _ _ _ h
  exact ⟨_, rfl⟩

lemma fan2_head {s : List Char} (h : mtchPre fan2 s = true) :
    ∃ t, s = 'F' :: t := by
  unfold mtchPre fan2 at h
  obtain ⟨t, rfl, _⟩ := mtch_rchars_ex _ _ _ _ h
  exact ⟨_, rfl⟩

lemma fan3_head {s : List Char} (h : mtchPre fan3 s = true) :
    ∃ t, s = 'F' :: t := by
  unfold mtchPre fan3 at h
  obtain ⟨t, rfl, _⟩ := mtch_rchars_ex _ _ _ _ h
  exact ⟨_, rfl⟩

lemma fan4_shape {s : List Char} (h : mtchPre fan4 s = true) :
    ∃ d t, s = 'n' :: 'o' :: 'd' :: 'e' :: d :: ' ' :: 'S' :: t := by
  unfold mtchPre fan4 at h
  obtain ⟨t₀, rfl, h0⟩ := mtch_rchars_ex _ _ _ _ h
  obtain ⟨d, t₁, rfl, _, h1⟩ := mtch_cls_ex h0
  obtain ⟨t₂, rfl, _⟩ := mtch_rchars_ex _ _ _ _ h1
  exact ⟨d, _, rfl⟩

lemma fan5_shape {s : List Char} (h : mtchPre fan5 s = true) :
    ∃ d t, s = 'n' :: 'o' :: 'd' :: 'e' :: d :: ' ' :: 'F' :: t := by
  unfold mtchPre fan5 at h
  obtain ⟨t₀, rfl, h0⟩ := mtch_rchars_ex _ _ _ _ h
  obtain ⟨d, t₁, rfl, _, h1⟩ := mtch_cls_ex h0
  obtain ⟨t₂, rfl, _⟩ := mtch_rchars_ex _ _ _ _ h1
  exact ⟨d, _, rfl⟩

lemma fan6_shape {s : List Char} (h : mtchPre fan6 s = true) :
    ∃ d t, s = 'n' :: 'o' :: 'd' :: 'e' :: d :: ' ' :: t ∧
      mtch (.cat rwordPlus (rchars [' ','T','r','a','y',' ','F','a','n',' '] rdigPlus)) t
        (fun _ => true) = true := by
  unfold mtchPre fan6 at h
  obtain ⟨t₀, rfl, h0⟩ := mtch_rchars_ex _ _ _ _ h
  obtain ⟨d, t₁, rfl, _, h1⟩ := mtch_cls_ex h0
  obtain ⟨t₂, rfl, h2⟩ := mtch_char_ex h1
  exact ⟨d, t₂, rfl, h2⟩

lemma fan7_head {s : List Char} (h : mtchPre fan7 s = true) :
    (∃ t, s = 'T' :: t) ∨ (∃ t, s = 'B' :: t) := by
  unfold mtchPre fan7 at h
  rcases (Bool.or_eq_true _ _).mp h with hT | hB
  · obtain ⟨t, rfl, _⟩ := mtch_rchars_ex _ _ _ _ hT
    exact Or.inl ⟨_, rfl⟩
  · obtain ⟨t, rfl, _⟩ := mtch_rchars_ex _ _ _ _ hB
    exact Or.inr ⟨_, rfl⟩

lemma f6_tail_no_pem {d : Char} (hd : digitB d = true) (t : List Char) :
    mtch (.cat rwordPlus (rchars [' ','T','r','a','y',' ','F','a','n',' '] rdigPlus))
      ('P' :: 'E' :: 'M' :: ' ' :: d :: t) (fun _ => true) = false := by
  have hdT : (d == 'T') = false := by
    rw [beq_eq_false_iff_ne]
    intro he
    rw [he] at hd
    exact absurd hd (by decide)
  have w1 : wordB 'P' = true := by decide
  have w2 : wordB 'E' = true := by decide
  have w3 : wordB 'M' = true := by decide
  have w4 : wordB ' ' = false := by decide
  have c1 : ('E' == ' ') = false := by decide
  have c2 : ('M' == ' ') = false := by decide
  have c3 : (' ' == ' ') = true := by decide
  simp only [mtch, mtchPlus, rchars, w1, w2, w3, w4, c1, c2, c3, hdT,
    Bool.true_and, Bool.false_and, Bool.false_or, Bool.or_false, Bool.and_false,
    Bool.or_self]

lemma pow_any_cases {s : List Char}
    (hp : TYPE_MAP.any (fun pt => mtchPre pt.1 s) = true) :
    (∃ t, s = 'P' :: t) ∨
    (∃ d₁ d₂ t, s = 'n' :: 'o' :: 'd' :: 'e' :: d₁ :: ' ' :: 'P' :: 'E' :: 'M' :: ' ' :: d₂ :: t
      ∧ digitB d₂ = true) := by
  rw [show TYPE_MAP = [(pow1, "PDM"), (pow2, "PEM"), (pow3, "PSM"), (pow4, "PEM"),
      (pow5, "PEM"), (pow6, "PEM")] from rfl] at hp
  simp only [List.any_cons, List.any_nil, Bool.or_eq_true, Bool.or_false] at hp
  rcases hp with h | h | h | h | h | h
  · obtain ⟨t, rfl⟩ := pow1_head h
    exact Or.inl ⟨_, rfl⟩
  · obtain ⟨t, rfl⟩ := pow2_head h
    exact Or.inl ⟨_, rfl⟩
  · obtain ⟨t, rfl⟩ := pow3_head h
    exact Or.inl ⟨_, rfl⟩
  · obtain ⟨t, rfl⟩ := pow4_head h
    exact Or.inl ⟨_, rfl⟩
  · obtain ⟨t, rfl⟩ := pow5_head h
    exact Or.inl ⟨_, rfl⟩
  · exact Or.inr (pow6_shape h)

lemma fan_any_cases {s : List Char}
    (hf : FAN_TYPES.any (fun r => mtchPre r s) = true) :
    (∃ t, s = 'F' :: t) ∨ (∃ t, s = 'T' :: t) ∨ (∃ t, s = 'B' :: t) ∨
    (∃ d t, s = 'n' :: 'o' :: 'd' :: 'e' :: d :: ' ' :: 'S' :: t) ∨
    (∃ d t, s = 'n' :: 'o' :: 'd' :: 'e' :: d :: ' ' :: 'F' :: t) ∨
    (∃ d t, s = 'n' :: 'o' :: 'd' :: 'e' :: d :: ' ' :: t ∧
      mtch (.cat rwordPlus (rchars [' ','T','r','a','y',' ','F','a','n',' '] rdigPlus)) t
        (fun _ => true) = true) := by
  rw [show FAN_TYPES = [fan1, fan2, fan3, fan4, fan5, fan6, fan7] from rfl] at hf
  simp only [List.any_cons, List.any_nil, Bool.or_eq_true, Bool.or_false] at hf
  rcases hf with h | h | h | h | h | h | h
  · obtain ⟨t, rfl⟩ := fan1_head h
    exact Or.inl ⟨_, rfl⟩
  · obtain ⟨t, rfl⟩ := fan2_head h
    exact Or.inl ⟨_, rfl⟩
  · obtain ⟨t, rfl⟩ := fan3_head h
    exact Or.inl ⟨_, rfl⟩
  · obtain ⟨d, t, rfl⟩ := fan4_shape h
    exact Or.inr (Or.inr (Or.inr (Or.inl ⟨d, _, rfl⟩)))
  · obtain ⟨d, t, rfl⟩ := fan5_shape h
    exact Or.inr (Or.inr (Or.inr (Or.inr (Or.inl ⟨d, _, rfl⟩))))
  · obtain ⟨d, t, rfl, hm⟩ := fan6_shape h
    exact Or.inr (Or.inr (Or.inr (Or.inr (Or.inr ⟨d, t, rfl, hm⟩))))
  · rcases fan7_head h with ⟨t, rfl⟩ | ⟨t, rfl⟩
    · exact Or.inr (Or.inl ⟨_, rfl⟩)
    · exact Or.inr (Or.inr (Or.inl ⟨_, rfl⟩))

lemma fan_pow_disjoint_chars {s : List Char}
    (hf : FAN_TYPES.any (fun r => mtchPre r s) = true)
    (hp : TYPE_MAP.any (fun pt => mtchPre pt.1 s) = true) : False := by
  rcases pow_any_cases hp with ⟨t, rfl⟩ | ⟨d₁, d₂, t, rfl, hd₂⟩
  · rcases fan_any_cases hf with ⟨t', he⟩ | ⟨t', he⟩ | ⟨t', he⟩ |
      ⟨d, t', he⟩ | ⟨d, t', he⟩ | ⟨d, t', he, hm⟩ <;>
    · injection he with e1 h2
      exact absurd e1 (by decide)
  · rcases fan_any_cases hf with ⟨t', he⟩ | ⟨t', he⟩ | ⟨t', he⟩ |
      ⟨d, t', he⟩ | ⟨d, t', he⟩ | ⟨d, t', he, hm⟩
    · injection he with e1 h2
      exact absurd e1 (by decide)
    · injection he with e1 h2
      exact absurd e1 (by decide)
    · injection he with e1 h2
      exact absurd e1 (by decide)
    · injection he with e1 he
      injection he with e2 he
      injection he with e3 he
      injection he with e4 he
      injection he with e5 he
      injection he with e6 he
      injection he with e7 he
      exact absurd e7 (by decide)
    · injection he with e1 he
      injection he with e2 he
      injection he with e3 he
      injection he with e4 he
      injection he with e5 he
      injection he with e6 he
      injection he with e7 he
      exact absurd e7 (by decide)
    · injection he with e1 he
      injection he with e2 he
      injection he with e3 he
      injection he with e4 he
      injection he with e5 he
      injection he with e6 htail
      subst htail
      have hfalse := f6_tail_no_pem hd₂ t
      rw [hfalse] at hm
      exact absurd hm (by decide)

lemma pow_match_typeSig {s : List Char} :
    ∀ pt ∈ TYPE_MAP, mtchPre pt.1 s = true → pt.2 = typeSig s := by
  intro pt hpt h
  rw [show TYPE_MAP = [(pow1, "PDM"), (pow2, "PEM"), (pow3, "PSM"), (pow4, "PEM"),
      (pow5, "PEM"), (pow6, "PEM")] from rfl] at hpt
  simp only [List.mem_cons, List.not_mem_nil, or_false] at hpt
  rcases hpt with rfl | rfl | rfl | rfl | rfl | rfl
  · obtain ⟨t, rfl⟩ := pow1_head h
    rfl
  · obtain ⟨t, rfl⟩ := pow2_head h
    rfl
  · obtain ⟨t, rfl⟩ := pow3_head h
    rfl
  · obtain ⟨t, rfl⟩ := pow4_head h
    rfl
  · obtain ⟨t, rfl⟩ := pow5_head h
    rfl
  · obtain ⟨t, rfl⟩ := pow6_head h
    rfl

lemma pow_type_consistent {s : List Char} :
    ∀ pt ∈ TYPE_MAP, ∀ qt ∈ TYPE_MAP,
      mtchPre pt.1 s = true → mtchPre qt.1 s = true → pt.2 = qt.2 :=
  fun pt hp qt hq h1 h2 =>
    (pow_match_typeSig pt hp h1).trans (pow_match_typeSig qt hq h2).symm

lemma fans_eq_firstMatch (c : List (String × String)) :
    _fans c = fansFirstMatch c := by
  unfold _fans fansFirstMatch
  refine Eq.trans (catFold_eq_first FAN_TYPES (fun r nm => reMatch r nm)
    (fun _ nm => nm) (fun nm p hp q hq h1 h2 => rfl) c []) ?_
  congr 1
  funext a p
  cases FAN_TYPES.find? (fun r => reMatch r p.2) <;> rfl

lemma power_eq_firstMatch (c : List (String × String)) :
    _power_modules c = powerFirstMatch c := by
  unfold _power_modules powerFirstMatch
  refine Eq.trans (catFold_eq_first TYPE_MAP (fun pt nm => reMatch pt.1 nm)
    (fun pt nm => (nm, pt.2))
    (fun nm p hp q hq h1 h2 => by
      have ht := pow_type_consistent p hp q hq h1 h2
      show (nm, p.2) = (nm, q.2)
      rw [ht]) c []) ?_
  congr 1
  funext a p
  cases TYPE_MAP.find? (fun pt => reMatch pt.1 p.2) <;> rfl

lemma mem_keys_fans {c : List (String × String)} {i : String}
    (h : i ∈ keys (_fans c)) : ∃ nm, (i, nm) ∈ c ∧ fanMatchAny nm = true := by
  unfold _fans at h
  rcases catFold_keys_sub FAN_TYPES (fun r nm => reMatch r nm) (fun _ nm => nm)
      i c [] h with h0 | hex
  · simp [keys] at h0
  · exact hex

lemma mem_keys_power {c : List (String × String)} {i : String}
    (h : i ∈ keys (_power_modules c)) :
    ∃ nm, (i, nm) ∈ c ∧ powerMatchAny nm = true := by
  unfold _power_modules at h
  rcases catFold_keys_sub TYPE_MAP (fun pt nm => reMatch pt.1 nm)
      (fun pt nm => (nm, pt.2)) i c [] h with h0 | hex
  · simp [keys] at h0
  · exact hex

lemma keys_nodup_fans (c : List (String × String)) :
    (keys (_fans c)).Nodup := by
  unfold _fans
  exact catFold_keys_nodup FAN_TYPES (fun r nm => reMatch r nm) (fun _ nm => nm)
    c [] (by simp [keys])

lemma keys_nodup_power (c : List (String × String)) :
    (keys (_power_modules c)).Nodup := by
  unfold _power_modules
  exact catFold_keys_nodup TYPE_MAP (fun pt nm => reMatch pt.1 nm)
    (fun pt nm => (nm, pt.2)) c [] (by simp [keys])

lemma fan_power_name_disjoint (nm : String) :
    ¬(fanMatchAny nm = true ∧ powerMatchAny nm = true) := by
  rintro ⟨hf, hp⟩
  exact fan_pow_disjoint_chars hf hp

/-- Amended Claim C3: patterns are evaluated in declaration order and the
classifier result equals the first-match result (for fans trivially, for
power modules because all patterns matching a given name carry the same
canonical type, so the code's overwrite-on-later-match cannot change the
outcome); no index is assigned two entries by the same classifier (the key
lists are duplicate-free); and, contrary to the original claim, an index
can never appear in both the fan and the power-module outputs, because no
name matches a pattern of both lists. -/
theorem C3_regex_classifier_tiebreak (c : List (String × String)) :
    (_fans c = fansFirstMatch c) ∧
    (_power_modules c = powerFirstMatch c) ∧
    ((keys (_fans c)).Nodup ∧ (keys (_power_modules c)).Nodup) ∧
    (∀ nm : String, ¬(fanMatchAny nm = true ∧ powerMatchAny nm = true)) ∧
    ((keys c).Nodup →
      ∀ i, ¬(i ∈ keys (_fans c) ∧ i ∈ keys (_power_modules c))) := by
  refine ⟨fans_eq_firstMatch c, power_eq_firstMatch c,
    ⟨keys_nodup_fans c, keys_nodup_power c⟩,
    fun nm => fan_power_name_disjoint nm, ?_⟩
  rintro hnd i ⟨hif, hip⟩
  obtain ⟨nm, hnm, hfm⟩ := mem_keys_fans hif
  obtain ⟨nm2, hnm2, hpm⟩ := mem_keys_power hip
  have heq : nm = nm2 := nodup_keys_val_eq hnd hnm hnm2
  subst heq
  exact fan_power_name_disjoint nm ⟨hfm, hpm⟩

/-- Counterexample to Claim C3 as stated: its last conjunct asserts that an
index may appear in both the fan and the power-module classifier outputs,
but for the frozen pattern lists this is impossible for every catalog with
duplicate-free keys (as Python dict catalogs are). -/
theorem C3_counterexample :
    ¬ ∃ (c : List (String × String)) (i : String),
      (keys c).Nodup ∧ i ∈ keys (_fans c) ∧ i ∈ keys (_power_modules c) := by
  rintro ⟨c, i, hnd, hif, hip⟩
  obtain ⟨nm, hnm, hfm⟩ := mem_keys_fans hif
  obtain ⟨nm2, hnm2, hpm⟩ := mem_keys_power hip
  have heq : nm = nm2 := nodup_keys_val_eq hnd hnm hnm2
  subst heq
  exact fan_power_name_disjoint nm ⟨hfm, hpm⟩

/-- Witness for the amended C3 on a concrete two-entry catalog. -/
theorem C3_regex_classifier_tiebreak_witness :
    _fans [("1", "Fan Tray 1 Fan 2"), ("2", "PEM 0")]
        = fansFirstMatch [("1", "Fan Tray 1 Fan 2"), ("2", "PEM 0")] ∧
    ¬("1" ∈ keys (_fans [("1", "Fan Tray 1 Fan 2"), ("2", "PEM 0")]) ∧
      "1" ∈ keys (_power_modules [("1", "Fan Tray 1 Fan 2"), ("2", "PEM 0")])) :=
  ⟨(C3_regex_classifier_tiebreak [("1", "Fan Tray 1 Fan 2"), ("2", "PEM 0")]).1,
   (C3_regex_classifier_tiebreak [("1", "Fan Tray 1 Fan 2"), ("2", "PEM 0")]).2.2.2.2
     (by decide) "1"⟩

/-! ## Claim C9: emission failure is logged and swallowed -/

/-- Claim C9: whatever the outcome of the downstream sink on the payload,
`get_enrichment` returns the enrichment group set (with the enrichment
group added); when the sink raises, an error is logged and the exception
does not propagate (the returned group set is the same as on success). -/
theorem C9_emission_failure_swallowed
    (sink : EnrichmentSetPayload → Except String Unit)
    (oids : List (String × OidEntry)) (groups : List MetricsGroup)
    (fqdn grp : String) (gset : List String) :
    (get_enrichment sink oids groups fqdn grp gset).groupSet = gset ++ [grp] ∧
    (∀ e, sink ⟨oids, groups⟩ = .error e →
      (get_enrichment sink oids groups fqdn grp gset).errorLogs ≠ []) := by
  constructor
  · rfl
  · intro e he
    simp [get_enrichment, he]

/-- Witness for C9 with a sink that always rejects the payload. -/
theorem C9_emission_failure_swallowed_witness :
    (get_enrichment (fun _ => .error "rejected") [] [] "d" "g" []).groupSet
        = [] ++ ["g"] ∧
    (get_enrichment (fun _ => .error "rejected") [] [] "d" "g" []).errorLogs ≠ [] :=
  ⟨(C9_emission_failure_swallowed (fun _ => .error "rejected") [] [] "d" "g" []).1,
   (C9_emission_failure_swallowed (fun _ => .error "rejected") [] [] "d" "g" []).2
     "rejected" rfl⟩

end JP
